import Mathlib

/-!
Verification of the tree-mirroring engine of the mtp-files example
(`src/unnamed/part_000`, a variant of libmtp `examples/files.c`).

The embedding translates, from the C source:
  * the path stack (`push_segment`, `pop_segment`),
  * the logical-path builder `current_path` (including its exact buffer
    writes, so out-of-bounds writes are observable),
  * the change detector `should_copy`,
  * the failure budget `exit_if_too_many_fails`,
  * the local-directory helpers `pushdir` and `popdir`,
  * the recursive traversal `dump_files`.

Machine integers become `Nat`: the sizes and errno values involved are
nonnegative in every execution considered.  The process environment
(results of `stat`, `mkdir`, `chdir`, and file downloads, and the remote
listing returned by `LIBMTP_Get_Files_And_Folders`) is passed in as
explicit data, so the functions are pure and executable.
-/

/-- Linux value of the `ENOENT` errno used by the source. -/
def ENOENT : Nat := 2

/-- Linux value of the `EEXIST` errno used by the source. -/
def EEXIST : Nat := 17

/-- The path separator character written by `current_path`. -/
def slash : Char := Char.ofNat 47

/-- The NUL byte: C string terminator, also the `memset` fill value. -/
def nulChar : Char := Char.ofNat 0

/-! ## Path stack

The C code keeps a doubly linked list of segments with `path_stack_first`
and `path_stack_last` pointers.  `push_segment` appends at the tail and
`current_path` walks from the head, so the list is embedded as a
`List String` ordered head-first (oldest segment first). -/

/-- Embeds `push_segment`: appends a copy of `name` as the new tail segment. -/
def push_segment (name : String) (stack : List String) : List String :=
  stack ++ [name]

/-- Outcome of `pop_segment`.  On an empty stack `path_stack_last` is the
null pointer and the source evaluates `path_stack_last->prev`, so the
only possible behaviours of the code are removing the tail segment or a
null-pointer dereference. -/
inductive PopResult where
  | popped (stack : List String)
  | nullDereference
deriving DecidableEq, Repr

/-- Embeds `pop_segment`: unlinks and frees the tail node.  With at least one
node, `path_stack_last` moves to its predecessor (and `path_stack_first`
is cleared first when there is exactly one node), which removes the last
element.  With no node, the code dereferences the null `path_stack_last`. -/
def pop_segment (stack : List String) : PopResult :=
  match stack with
  | [] => PopResult.nullDereference
  | x :: xs => PopResult.popped ((x :: xs).dropLast)

/-- Outcome of the pop operation as the specification describes it. -/
inductive SpecPopResult where
  | popped (stack : List String)
  | logicError (msg : String)
deriving DecidableEq, Repr

/-- Modelled from the spec (the source contains no such check): `pop()`
removes the current tail segment and fails with a LogicError
("pop with empty stack") if called when the stack is empty. -/
def pop_segment_spec (stack : List String) : SpecPopResult :=
  match stack with
  | [] => SpecPopResult.logicError ("pop with empty stack")
  | x :: xs => SpecPopResult.popped ((x :: xs).dropLast)

/-! ## `current_path`

The C function allocates `max_write = PATH_MAX + 1` bytes, zeroes them,
and copies the segments with

    for (seg = path_stack_first; seg; seg = seg->next) {
        char *s = seg->segment;
        while (*s && b < last_char) { *b++ = *s++; }
        *b++ = '/';
    }
    b = b < last_char ? b : last_char;
    *b = '\0';

where `last_char = buf + PATH_MAX`.  The embedding is parametric in the
platform constant `PATH_MAX` (`path_max` below; POSIX requires at least
256, Linux uses 4096) and records every store as a pair
(byte offset from `buf`, character written), so that stores landing
outside the `path_max + 1`-byte allocation are visible.  Note that the
`*b++ = '/'` store is not guarded by `b < last_char`. -/

/-- The inner loop `while (*s && b < last_char) *b++ = *s++;`:
returns the final offset `b` and the stores performed, in order. -/
def copy_segment (last_char : Nat) : List Char → Nat → Nat × List (Nat × Char)
  | [], b => (b, [])
  | c :: s, b =>
    if c.toNat ≠ 0 ∧ b < last_char then
      let r := copy_segment last_char s (b + 1)
      (r.1, (b, c) :: r.2)
    else
      (b, [])

/-- The outer loop over the stack: each segment is copied (truncated at
`last_char`) and then a `'/'` is stored unconditionally at the current
offset. -/
def path_loop (last_char : Nat) : List (List Char) → Nat → Nat × List (Nat × Char)
  | [], b => (b, [])
  | seg :: rest, b =>
    let r := copy_segment last_char seg b
    let r2 := path_loop last_char rest (r.1 + 1)
    (r2.1, r.2 ++ (r.1, slash) :: r2.2)

/-- All stores of one `current_path` call (segment characters, separators
and the final NUL terminator), together with the clamped final offset
`b = b < last_char ? b : last_char`. -/
def current_path_writes (path_max : Nat) (stack : List (List Char)) :
    Nat × List (Nat × Char) :=
  let r := path_loop path_max stack 0
  let bFinal := if r.1 < path_max then r.1 else path_max
  (bFinal, r.2 ++ [(bFinal, nulChar)])

/-- The C string returned by `current_path`: the zeroed buffer of
`path_max + 1` bytes after the stores, read up to the first NUL byte.
Stores at offsets beyond `path_max` fall outside the allocation and do
not change the buffer contents (in C they corrupt adjacent heap memory;
the store trace `current_path_writes` is the authority on them). -/
def current_path (path_max : Nat) (stack : List (List Char)) : List Char :=
  let w := current_path_writes path_max stack
  let buf := w.2.foldl (fun buf pc => buf.set pc.1 pc.2)
      (List.replicate (path_max + 1) nulChar)
  buf.takeWhile (fun c => c.toNat ≠ 0)

/-- Applies `current_path` to a stack of `String` segments, as a `String`. -/
def current_path_str (path_max : Nat) (stack : List String) : String :=
  String.mk (current_path path_max (stack.map String.data))

example : current_path_str 256 ["a", "b", "c"] = "a/b/c/" := by decide
example : current_path_str 256 [] = "" := by decide

/-! ## `should_copy`

    static int should_copy(LIBMTP_file_t *file) {
        char *path = current_path();
        ... full_path = path ++ filename ...
        if (-1 == stat(file->filename, &statbuf)) {
            if (errno == ENOENT) { print; retval = 1; }
            else { print; exit(errno); }
        } else {
            print;
            retval = statbuf.st_size != file->filesize;
        }
        ...
        return retval;
    }

The `stat` call and its result are environment inputs, passed in as a
`StatResult`.  Note that `stat` receives the bare `file->filename`; the
constructed `full_path` appears only inside `fprintf` output.  The
diagnostic lines are returned so that this dependence is part of the
model (apostrophes of the C format strings are elided). -/

/-- Result of the `stat(2)` call on the bare file name, resolved against
the process's current working directory: either the file was found with
the given `st_size`, or the call failed with the given `errno` (POSIX
errno values are positive). -/
inductive StatResult where
  | found (size : Nat)
  | error (errno : Nat)
deriving DecidableEq, Repr

/-- What a `should_copy` call does after its diagnostics: return an
`int` used as a boolean, or terminate the process via `exit(errno)`. -/
inductive CopyCheckResult where
  | ret (willCopy : Bool)
  | exitProcess (code : Nat)
deriving DecidableEq, Repr

/-- Embeds `should_copy`: the emitted stdout lines and the outcome. -/
def should_copy (path_max : Nat) (stack : List String) (filename : String)
    (filesize : Nat) (statRes : StatResult) : List String × CopyCheckResult :=
  let path := current_path_str path_max stack
  let full_path := path ++ filename
  match statRes with
  | StatResult.error e =>
    if e = ENOENT then
      (["STAT(" ++ filename ++ ")->ENOENT"], CopyCheckResult.ret true)
    else
      (["couldnt stat " ++ filename ++ " (" ++ full_path ++
          ") and errno is not ENOENT: " ++ toString e],
       CopyCheckResult.exitProcess e)
  | StatResult.found size =>
    (["compare: " ++ filename ++ " (" ++ full_path ++ ") : " ++
        toString size ++ " == " ++ toString filesize],
     CopyCheckResult.ret (size != filesize))

/-! ## Failure budget

    static void exit_if_too_many_fails() {
        static int fails = 0;
        fails = fails + 1;
        fprintf(stdout, "total fails so far: %i", fails);
        if (fails > 10) { exit(1); }
    }

The static counter becomes explicit state: the function maps the counter
before the call to the counter after it, plus `some code` when the call
reaches `exit(code)`. -/

/-- One `exit_if_too_many_fails` call starting from counter `fails`. -/
def exit_if_too_many_fails (fails : Nat) : Nat × Option Nat :=
  let f := fails + 1
  (f, if f > 10 then some 1 else none)

/-- Counter value after `n` calls, starting from the initializer 0
(ignoring that a late call may have exited). -/
def fails_after : Nat → Nat
  | 0 => 0
  | n + 1 => (exit_if_too_many_fails (fails_after n)).1

/-! ## `pushdir` and `popdir`

    static void pushdir(const char *dirname) {
        if (mkdir(dirname, 0755) != 0 && errno != EEXIST) { print; exit(1); }
        if (chdir(dirname) != 0) { print; exit(1); }
        push_segment(dirname);
    }
    static void popdir() {
        if (chdir("..") != 0) { print; exit(1); }
        pop_segment();
    }

The `mkdir` outcome is an environment input: `none` for success, `some e`
for failure with errno `e`.  The `chdir` outcomes are booleans. -/

/-- Trace of the observable steps a traversal performs, in order. -/
inductive Act where
  | dumpErrorstack
  | clearErrorstack
  | enterDirectory (name : String)
  | leaveDirectory (name : String)
  | stdout (line : String)
  | pushSeg (name : String)
  | popSeg
  | printPath (path : String)
  | fileinfo (name : String)
  | shouldCopyLine (name : String) (willCopy : Bool)
  | downloadCall (name : String) (ok : Bool)
  | failTally (count : Nat)
deriving DecidableEq, Repr

/-- Outcome of `pushdir`. -/
inductive DirResult where
  | entered (stack : List String)
  | exitProcess (code : Nat)
deriving DecidableEq, Repr

/-- Embeds `pushdir`: the emitted actions and the outcome.  `mkdir` failure with
`EEXIST` falls through to the `chdir`, exactly like `mkdir` success. -/
def pushdir (mkdirErr : Option Nat) (chdirOk : Bool) (dirname : String)
    (stack : List String) : List Act × DirResult :=
  if (match mkdirErr with
      | some e => e != EEXIST
      | none => false) then
    ([Act.stdout ("couldnt mkdir " ++ dirname)], DirResult.exitProcess 1)
  else if !chdirOk then
    ([Act.stdout ("couldnt chdir " ++ dirname)], DirResult.exitProcess 1)
  else
    ([Act.pushSeg dirname], DirResult.entered (push_segment dirname stack))

/-- Outcome of `popdir`.  `crashed` is the null dereference that
`pop_segment` performs when the stack is empty. -/
inductive PopdirResult where
  | left (stack : List String)
  | exitProcess (code : Nat)
  | crashed
deriving DecidableEq, Repr

/-- Embeds `popdir`: the emitted actions and the outcome. -/
def popdir (chdirBackOk : Bool) (stack : List String) :
    List Act × PopdirResult :=
  if !chdirBackOk then
    ([Act.stdout ("wow, couldnt chdir(..) ")], PopdirResult.exitProcess 1)
  else
    match pop_segment stack with
    | PopResult.popped s => ([Act.popSeg], PopdirResult.left s)
    | PopResult.nullDereference => ([], PopdirResult.crashed)

/-! ## The traversal `dump_files`

The remote listing for a directory (`LIBMTP_Get_Files_And_Folders`) and
the environment outcomes of each local operation are packaged into the
tree handed to the interpreter:

  * a `file` entry carries the remote name and declared size, the result
    of the `stat` that `should_copy` will perform, and whether the
    `LIBMTP_Get_File_To_File` download would succeed;
  * a `folder` entry carries the `mkdir`/`chdir` outcomes of `pushdir`,
    the `chdir("..")` outcome of `popdir`, and the listing that the
    recursive `dump_files` call will receive (`null` when the library
    call returns `NULL`).

`dump_files` lists, `process_list` is the `while (file != NULL)` loop and
`process_entry` one loop body. -/

mutual
inductive Entry where
  | folder (name : String) (mkdirErr : Option Nat) (chdirOk : Bool)
      (chdirBackOk : Bool) (sub : Listing)
  | file (name : String) (filesize : Nat) (statRes : StatResult)
      (downloadOk : Bool)

inductive EntryList where
  | nil
  | cons (e : Entry) (rest : EntryList)

inductive Listing where
  | null
  | entries (l : EntryList)
end

/-- Mutable state the C code keeps across the traversal: the global path
stack and the static failure counter. -/
structure St where
  stack : List String
  fails : Nat
deriving DecidableEq, Repr

/-- How a traversal step ends: normal return, `exit(code)`, or the
null-pointer crash of `pop_segment` on an empty stack. -/
inductive Outcome where
  | ok (st : St)
  | exited (code : Nat)
  | crashed
deriving DecidableEq, Repr

mutual

/-- Embeds `dump_files`: a `NULL` listing dumps and clears the error stack and
returns; otherwise the entry loop runs. -/
def dump_files (pm : Nat) (l : Listing) (st : St) : List Act × Outcome :=
  match l with
  | Listing.null => ([Act.dumpErrorstack, Act.clearErrorstack], Outcome.ok st)
  | Listing.entries es => process_list pm es st

/-- The `while (file != NULL)` loop of `dump_files`: an `exit` or crash
in one iteration ends the loop (and the process) immediately. -/
def process_list (pm : Nat) (es : EntryList) (st : St) : List Act × Outcome :=
  match es with
  | EntryList.nil => ([], Outcome.ok st)
  | EntryList.cons e rest =>
    let r := process_entry pm e st
    match r.2 with
    | Outcome.ok st2 =>
      let r2 := process_list pm rest st2
      (r.1 ++ r2.1, r2.2)
    | Outcome.exited c => (r.1, Outcome.exited c)
    | Outcome.crashed => (r.1, Outcome.crashed)

/-- One loop body of `dump_files`. -/
def process_entry (pm : Nat) (e : Entry) (st : St) : List Act × Outcome :=
  match e with
  | Entry.folder name mkdirErr chdirOk chdirBackOk sub =>
    match pushdir mkdirErr chdirOk name st.stack with
    | (acts, DirResult.exitProcess code) =>
      (Act.enterDirectory name :: acts, Outcome.exited code)
    | (acts, DirResult.entered newStack) =>
      let st1 : St := { st with stack := newStack }
      let head := Act.enterDirectory name :: acts ++
        [Act.printPath (current_path_str pm newStack)]
      let sub_r := dump_files pm sub st1
      match sub_r.2 with
      | Outcome.exited c => (head ++ sub_r.1, Outcome.exited c)
      | Outcome.crashed => (head ++ sub_r.1, Outcome.crashed)
      | Outcome.ok st2 =>
        let head2 := head ++ sub_r.1 ++ [Act.leaveDirectory name]
        match popdir chdirBackOk st2.stack with
        | (pacts, PopdirResult.exitProcess code) =>
          (head2 ++ pacts, Outcome.exited code)
        | (pacts, PopdirResult.crashed) => (head2 ++ pacts, Outcome.crashed)
        | (pacts, PopdirResult.left newStack2) =>
          (head2 ++ pacts ++ [Act.printPath (current_path_str pm newStack2)],
           Outcome.ok { st2 with stack := newStack2 })
  | Entry.file name filesize statRes downloadOk =>
    let sc := should_copy pm st.stack name filesize statRes
    let scActions := sc.1.map Act.stdout
    match sc.2 with
    | CopyCheckResult.exitProcess code =>
      (Act.fileinfo name :: scActions, Outcome.exited code)
    | CopyCheckResult.ret willCopy =>
      let pre := Act.fileinfo name :: scActions ++
        [Act.shouldCopyLine name willCopy]
      if willCopy then
        if downloadOk then
          (pre ++ [Act.downloadCall name true], Outcome.ok st)
        else
          let newFails := st.fails + 1
          let tally := [Act.downloadCall name false,
            Act.stdout ("couldnt write " ++ name),
            Act.failTally newFails]
          if newFails > 10 then (pre ++ tally, Outcome.exited 1)
          else (pre ++ tally, Outcome.ok { st with fails := newFails })
      else (pre, Outcome.ok st)

end

/-- Is this action the `push_segment` of a traversal step? -/
def isPush : Act → Bool
  | Act.pushSeg _ => true
  | _ => false

/-- Is this action the `pop_segment` of a traversal step? -/
def isPop : Act → Bool
  | Act.popSeg => true
  | _ => false

/-- Is this action the `LIBMTP_Clear_Errorstack` call? -/
def isClear : Act → Bool
  | Act.clearErrorstack => true
  | _ => false

mutual
/-- No `NULL` listing occurs anywhere at or below this entry. -/
def entryNoNull : Entry → Bool
  | Entry.folder _ _ _ _ sub => listingNoNull sub
  | Entry.file _ _ _ _ => true

/-- No `NULL` listing occurs anywhere in this list of entries. -/
def entryListNoNull : EntryList → Bool
  | EntryList.nil => true
  | EntryList.cons e rest => entryNoNull e && entryListNoNull rest

/-- The listing itself is not `NULL`, and none below it is. -/
def listingNoNull : Listing → Bool
  | Listing.null => false
  | Listing.entries l => entryListNoNull l
end

/-! ## Specification-side path join and write bookkeeping -/

/-- The path the specification describes: the segments in push order,
each followed by one separator. -/
def joined : List (List Char) → List Char
  | [] => []
  | seg :: rest => seg ++ slash :: joined rest

/-- The length of the joined path: each segment plus its separator. -/
def joined_len : List (List Char) → Nat
  | [] => 0
  | seg :: rest => seg.length + 1 + joined_len rest

/-- The store trace that writes the characters of `cs` at consecutive
offsets starting at `b`. -/
def writes_from (b : Nat) : List Char → List (Nat × Char)
  | [] => []
  | c :: s => (b, c) :: writes_from (b + 1) s

/-- A segment with no embedded NUL byte (every C string segment). -/
def nulFree (seg : List Char) : Prop :=
  ∀ c ∈ seg, c.toNat ≠ 0

instance (seg : List Char) : Decidable (nulFree seg) :=
  List.decidableBAll _ seg

/-- A small concrete device tree used to instantiate the traversal
theorems: one folder holding one stale file, then one up-to-date file. -/
def exampleListing : Listing :=
  Listing.entries (EntryList.cons
    (Entry.folder ("docs") none true true
      (Listing.entries (EntryList.cons
        (Entry.file ("a.txt") 7 (StatResult.error ENOENT) true) EntryList.nil)))
    (EntryList.cons (Entry.file ("b.txt") 5 (StatResult.found 5) true)
      EntryList.nil))

/-! ## Lemmas: `current_path` reconstructs the joined path when it fits -/

theorem writes_from_append (b : Nat) (xs ys : List Char) :
    writes_from b (xs ++ ys) = writes_from b xs ++ writes_from (b + xs.length) ys := by
  induction xs generalizing b with
  | nil => simp [writes_from]
  | cons c s ih =>
    have h : b + 1 + s.length = b + (s.length + 1) := by omega
    simp only [List.cons_append, writes_from, List.length_cons]
    rw [show s.append ys = s ++ ys from rfl, ih (b + 1), h]

theorem copy_segment_full (last : Nat) (seg : List Char) (b : Nat)
    (hnf : nulFree seg) (hle : b + seg.length ≤ last) :
    copy_segment last seg b = (b + seg.length, writes_from b seg) := by
  induction seg generalizing b with
  | nil => simp [copy_segment, writes_from]
  | cons c s ih =>
    have hc : c.toNat ≠ 0 := hnf c (by simp)
    have hb : b < last := by
      simp only [List.length_cons] at hle
      omega
    rw [copy_segment, if_pos ⟨hc, hb⟩,
      ih (b + 1) (fun d hd => hnf d (by simp [hd]))
        (by simp only [List.length_cons] at hle; omega)]
    simp only [writes_from, List.length_cons]
    have h : b + 1 + s.length = b + (s.length + 1) := by omega
    rw [h]

theorem path_loop_full (last : Nat) (stack : List (List Char)) (b : Nat)
    (hnf : ∀ seg ∈ stack, nulFree seg) (hle : b + joined_len stack ≤ last) :
    path_loop last stack b = (b + joined_len stack, writes_from b (joined stack)) := by
  induction stack generalizing b with
  | nil => simp [path_loop, joined_len, joined, writes_from]
  | cons seg rest ih =>
    have hlen : b + seg.length ≤ last := by
      simp only [joined_len] at hle
      omega
    simp only [path_loop]
    rw [copy_segment_full last seg b (hnf seg (by simp)) hlen]
    rw [ih (b + seg.length + 1) (fun s hs => hnf s (by simp [hs]))
      (by simp only [joined_len] at hle; omega)]
    simp only [joined, joined_len, writes_from_append, writes_from, Prod.mk.injEq]
    exact ⟨by omega, trivial⟩

theorem set_at_append (done : List Char) (c r : Char) (rs : List Char) :
    (done ++ r :: rs).set done.length c = done ++ c :: rs := by
  induction done with
  | nil => simp
  | cons d ds ih => simp [ih]

theorem foldl_set_writes (cs : List Char) : ∀ done rest : List Char,
    cs.length ≤ rest.length →
    (writes_from done.length cs).foldl (fun buf pc => buf.set pc.1 pc.2) (done ++ rest)
      = done ++ cs ++ rest.drop cs.length := by
  induction cs with
  | nil => intro done rest _; simp [writes_from]
  | cons c cs ih =>
    intro done rest h
    cases rest with
    | nil => simp at h
    | cons r rs =>
      simp only [writes_from, List.foldl_cons]
      rw [set_at_append]
      have hshape : done ++ c :: rs = (done ++ [c]) ++ rs := by simp
      have hlen : done.length + 1 = (done ++ [c]).length := by simp
      rw [hshape, hlen, ih (done ++ [c]) rs
        (by simp only [List.length_cons] at h; omega)]
      simp [List.append_assoc]

theorem foldl_set_writes_zero (cs rest : List Char) (h : cs.length ≤ rest.length) :
    (writes_from 0 cs).foldl (fun buf pc => buf.set pc.1 pc.2) rest
      = cs ++ rest.drop cs.length := by
  simpa using foldl_set_writes cs [] rest h

theorem takeWhile_all_append (p : Char → Bool) (xs : List Char) (y : Char)
    (ys : List Char) (hall : ∀ x ∈ xs, p x = true) (hy : p y = false) :
    (xs ++ y :: ys).takeWhile p = xs := by
  induction xs with
  | nil => simp [List.takeWhile_cons, hy]
  | cons x xs ih =>
    simp [List.takeWhile_cons, hall x (by simp),
      ih (fun z hz => hall z (by simp [hz]))]

theorem joined_len_eq (stack : List (List Char)) :
    joined_len stack = (joined stack).length := by
  induction stack with
  | nil => simp [joined, joined_len]
  | cons seg rest ih =>
    simp only [joined, joined_len, List.length_append, List.length_cons, ih]
    omega

theorem joined_nulFree (stack : List (List Char))
    (h : ∀ seg ∈ stack, nulFree seg) :
    ∀ c ∈ joined stack, c.toNat ≠ 0 := by
  induction stack with
  | nil => simp [joined]
  | cons seg rest ih =>
    intro c hc
    simp only [joined, List.mem_append, List.mem_cons] at hc
    rcases hc with hseg | hslash | hrest
    · exact h seg (by simp) c hseg
    · subst hslash; decide
    · exact ih (fun s hs => h s (by simp [hs])) c hrest

theorem current_path_eq_joined (pm : Nat) (stack : List (List Char))
    (hnf : ∀ seg ∈ stack, nulFree seg) (hlen : joined_len stack ≤ pm) :
    current_path pm stack = joined stack := by
  have hJ : joined_len stack = (joined stack).length := joined_len_eq stack
  unfold current_path current_path_writes
  rw [path_loop_full pm stack 0 hnf (by omega)]
  simp only [Nat.zero_add]
  have hb : (if joined_len stack < pm then joined_len stack else pm)
      = joined_len stack := by
    rcases Nat.lt_or_ge (joined_len stack) pm with h | h
    · rw [if_pos h]
    · rw [if_neg (by omega)]
      omega
  rw [hb, hJ, List.foldl_append]
  rw [foldl_set_writes_zero (joined stack) (List.replicate (pm + 1) nulChar)
    (by simp; omega)]
  simp only [List.drop_replicate, List.foldl_cons, List.foldl_nil]
  have hk : pm + 1 - (joined stack).length = (pm - (joined stack).length) + 1 := by
    omega
  rw [hk, List.replicate_succ, set_at_append]
  refine takeWhile_all_append _ (joined stack) nulChar _ ?_ (by decide)
  intro c hc
  simpa using joined_nulFree stack hnf c hc

/-! ## Claim theorems -/

set_option maxRecDepth 8192 in
/-- Claim C1 (code bug support): the claim says every store of
`current_path`, the separator stores included, stays inside the
`PATH_MAX + 1`-byte buffer (offsets `0 .. PATH_MAX`).  At the POSIX
minimum `PATH_MAX = 256`, the stack whose first segment has exactly 256
characters followed by any second segment makes the unguarded
`*b++ = '/'` store land at offset 257, one byte past the allocation. -/
theorem C1_oob_separator_write :
    ((257 : Nat), slash) ∈
      (current_path_writes 256 [List.replicate 256 'a', ['x']]).2
    ∧ ¬ (∀ pc ∈ (current_path_writes 256 [List.replicate 256 'a', ['x']]).2,
          pc.1 < 256 + 1) := by
  decide

set_option maxRecDepth 8192 in
/-- Claim C2 (counterexample): for the stack holding one pushed segment
of 257 characters and `PATH_MAX = 256`, `current_path` does not return
the segment followed by a separator: the copy is truncated at the bound
and the separator is overwritten by the terminator, so the universally
quantified claim (every stack yields the segments joined with trailing
separators) is false. -/
theorem C2_counterexample :
    current_path_str 256 (push_segment (String.mk (List.replicate 257 'a')) [])
      ≠ String.mk (List.replicate 257 'a' ++ [slash]) := by
  decide

/-- Claim C2 (amended): `push("a")`, `push("b")`, `push("c")` yields
`"a/b/c/"`, one `pop()` later `"a/b/"`, and the empty stack yields `""`;
and for every stack of NUL-free segments whose joined length (each
segment plus its separator) is at most `PATH_MAX`, `currentPath` is the
segments in push order, each followed by a separator. -/
theorem C2_path_reconstruction :
    current_path_str 256
        (push_segment ("c") (push_segment ("b") (push_segment ("a") []))) = "a/b/c/"
    ∧ pop_segment ["a", "b", "c"] = PopResult.popped ["a", "b"]
    ∧ current_path_str 256 ["a", "b"] = "a/b/"
    ∧ pop_segment ["a", "b"] = PopResult.popped ["a"]
    ∧ pop_segment ["a"] = PopResult.popped []
    ∧ current_path_str 256 [] = ""
    ∧ ∀ path_max : Nat, ∀ stack : List String,
        (∀ s ∈ stack, nulFree s.data) →
        joined_len (stack.map String.data) ≤ path_max →
        current_path_str path_max stack
          = String.mk (joined (stack.map String.data)) := by
  refine ⟨by decide, by decide, by decide, by decide, by decide, by decide, ?_⟩
  intro pm stack hnf hlen
  have hn : ∀ seg ∈ stack.map String.data, nulFree seg := by
    intro seg hseg
    rcases List.mem_map.mp hseg with ⟨s, hs, rfl⟩
    exact hnf s hs
  unfold current_path_str
  rw [current_path_eq_joined pm (stack.map String.data) hn hlen]

/-- Witness for the hypotheses of `C2_path_reconstruction`: the general
part applied to the concrete stack `["ab", "c"]` with `PATH_MAX = 256`. -/
theorem C2_witness :
    (∀ s ∈ (["ab", "c"] : List String), nulFree s.data)
    ∧ joined_len ((["ab", "c"] : List String).map String.data) ≤ 256
    ∧ current_path_str 256 ["ab", "c"]
        = String.mk (joined ((["ab", "c"] : List String).map String.data)) := by
  refine ⟨by decide, by decide, ?_⟩
  exact C2_path_reconstruction.2.2.2.2.2.2 256 ["ab", "c"] (by decide) (by decide)

/-- Claim C3: `should_copy` returns 1 (copy) when the `stat` fails with
`ENOENT`, and when the local file exists it returns 1 exactly when the
local `st_size` differs from the remote declared size, 0 when they are
equal. -/
theorem C3_should_copy_size_policy :
    ∀ path_max : Nat, ∀ stack : List String, ∀ filename : String, ∀ filesize : Nat,
      ((should_copy path_max stack filename filesize (StatResult.error ENOENT)).2
        = CopyCheckResult.ret true)
      ∧ ∀ size : Nat,
          (((should_copy path_max stack filename filesize (StatResult.found size)).2
              = CopyCheckResult.ret true) ↔ size ≠ filesize)
          ∧ (((should_copy path_max stack filename filesize (StatResult.found size)).2
              = CopyCheckResult.ret false) ↔ size = filesize) := by
  intro pm stack f fs
  refine ⟨by simp [should_copy], ?_⟩
  intro size
  constructor
  · simp [should_copy]
  · simp [should_copy]

/-- Claim C4: the static failure counter starts at 0 and goes up by one
per call; the call made with counter 9 (the 10th recorded failure)
returns normally, while the call made with counter 10 (the 11th) makes
the counter exceed the threshold 10 and exits with status 1, which is
nonzero. -/
theorem C4_failure_budget_threshold :
    (∀ n, fails_after n = n)
    ∧ (∀ n, (exit_if_too_many_fails n).1 = n + 1)
    ∧ (exit_if_too_many_fails (fails_after 9)).2 = none
    ∧ (exit_if_too_many_fails (fails_after 10)).2 = some 1
    ∧ (1 : Nat) ≠ 0
    ∧ (∀ n, (exit_if_too_many_fails n).2
          = if n + 1 > 10 then some 1 else none) := by
  have hfa : ∀ n, fails_after n = n := by
    intro n
    induction n with
    | zero => rfl
    | succ k ih => simp [fails_after, exit_if_too_many_fails, ih]
  refine ⟨hfa, fun n => rfl, ?_, ?_, by decide, fun n => rfl⟩
  · rw [hfa]
    decide
  · rw [hfa]
    decide

/-- Claim C6 (counterexample): on the empty stack the code's
`pop_segment` dereferences the null `path_stack_last` pointer, while the
claimed behaviour (modelled from the spec as `pop_segment_spec`) is a
structured LogicError; the code contains no such check or message. -/
theorem C6_counterexample :
    pop_segment [] = PopResult.nullDereference
    ∧ pop_segment_spec [] = SpecPopResult.logicError ("pop with empty stack") :=
  ⟨rfl, rfl⟩

/-- Claim C6 (amended): `pop()` on an empty stack crashes by
dereferencing a null pointer instead of raising a LogicError; it never
silently succeeds on the empty stack, and on a nonempty stack it removes
exactly the tail segment. -/
theorem C6_pop_empty_no_silent_success :
    pop_segment [] = PopResult.nullDereference
    ∧ (∀ s, pop_segment [] ≠ PopResult.popped s)
    ∧ (∀ x : String, ∀ xs : List String,
        pop_segment (x :: xs) = PopResult.popped ((x :: xs).dropLast)) := by
  refine ⟨rfl, ?_, fun x xs => rfl⟩
  intro s h
  simp [pop_segment] at h

/-- Claim C10: the returned decision of `should_copy` (copy, skip, or
fatal exit) is the same for any two path-stack states, because the
`stat` is performed on the bare file name; the stack only influences the
diagnostic text through the constructed full path. -/
theorem C10_decision_independent_of_stack :
    ∀ path_max : Nat, ∀ stack1 stack2 : List String,
      ∀ filename : String, ∀ filesize : Nat, ∀ statRes : StatResult,
      (should_copy path_max stack1 filename filesize statRes).2
        = (should_copy path_max stack2 filename filesize statRes).2 := by
  intro pm s1 s2 f fs r
  cases r with
  | found size => simp [should_copy]
  | error e =>
    by_cases he : e = ENOENT <;> simp [should_copy, he]

/-! ## Lemmas: traversal invariants -/

theorem countP_map_stdout (p : Act → Bool)
    (h : ∀ s : String, p (Act.stdout s) = false) (xs : List String) :
    (xs.map Act.stdout).countP p = 0 := by
  induction xs with
  | nil => simp
  | cons x xs ih => simp [List.countP_cons, h, ih]

theorem pushdir_entered_inv (m : Option Nat) (c : Bool) (n : String)
    (s ns : List String) (acts : List Act)
    (h : pushdir m c n s = (acts, DirResult.entered ns)) :
    acts = [Act.pushSeg n] ∧ ns = s ++ [n] := by
  unfold pushdir at h
  split at h
  · exact absurd (congrArg Prod.snd h) (by simp)
  · split at h
    · exact absurd (congrArg Prod.snd h) (by simp)
    · have h1 := congrArg Prod.fst h
      have h2 := congrArg Prod.snd h
      simp only [Prod.snd] at h2
      have h3 : push_segment n s = ns := by
        simpa using h2
      exact ⟨h1.symm, by rw [← h3, push_segment]⟩

theorem popdir_left_inv (cb : Bool) (s ns : List String) (pacts : List Act)
    (h : popdir cb s = (pacts, PopdirResult.left ns)) :
    pacts = [Act.popSeg] ∧ ns = s.dropLast := by
  unfold popdir at h
  split at h
  · exact absurd (congrArg Prod.snd h) (by simp)
  · cases s with
    | nil => simp [pop_segment] at h
    | cons x xs =>
      simp only [pop_segment] at h
      have h1 := congrArg Prod.fst h
      have h2 := congrArg Prod.snd h
      simp only [Prod.snd] at h2
      have h3 : (x :: xs).dropLast = ns := by simpa using h2
      exact ⟨h1.symm, h3.symm⟩

mutual

theorem dump_files_balanced (pm : Nat) (l : Listing) (st st' : St)
    (tr : List Act) (h : dump_files pm l st = (tr, Outcome.ok st')) :
    st'.stack = st.stack ∧ tr.countP isPush = tr.countP isPop := by
  cases l with
  | null =>
    rw [dump_files, Prod.mk.injEq] at h
    obtain ⟨htr, ho⟩ := h
    have hst : st = st' := by injection ho
    subst htr
    subst hst
    exact ⟨rfl, by decide⟩
  | entries es => exact process_list_balanced pm es st st' tr h

theorem process_list_balanced (pm : Nat) (es : EntryList) (st st' : St)
    (tr : List Act) (h : process_list pm es st = (tr, Outcome.ok st')) :
    st'.stack = st.stack ∧ tr.countP isPush = tr.countP isPop := by
  cases es with
  | nil =>
    rw [process_list, Prod.mk.injEq] at h
    obtain ⟨htr, ho⟩ := h
    have hst : st = st' := by injection ho
    subst htr
    subst hst
    exact ⟨rfl, rfl⟩
  | cons e rest =>
    rw [process_list] at h
    rcases hpe : process_entry pm e st with ⟨tr1, o1⟩
    rw [hpe] at h
    cases o1 with
    | ok st2 =>
      simp only [] at h
      rcases hpl : process_list pm rest st2 with ⟨tr2, o2⟩
      rw [hpl] at h
      simp only [Prod.mk.injEq] at h
      obtain ⟨htr, ho⟩ := h
      subst htr
      rw [ho] at hpl
      have ih1 := process_entry_balanced pm e st st2 tr1 hpe
      have ih2 := process_list_balanced pm rest st2 st' tr2 hpl
      refine ⟨ih2.1.trans ih1.1, ?_⟩
      simp only [List.countP_append]
      omega
    | exited c => simp only [] at h; simp at h
    | crashed => simp only [] at h; simp at h

theorem process_entry_balanced (pm : Nat) (e : Entry) (st st' : St)
    (tr : List Act) (h : process_entry pm e st = (tr, Outcome.ok st')) :
    st'.stack = st.stack ∧ tr.countP isPush = tr.countP isPop := by
  cases e with
  | file name filesize statRes downloadOk =>
    rw [process_entry] at h
    rcases hsc : should_copy pm st.stack name filesize statRes with ⟨outs, res⟩
    rw [hsc] at h
    cases res with
    | exitProcess code => simp at h
    | ret willCopy =>
      cases willCopy with
      | false =>
        simp only [Bool.false_eq_true, if_false, Prod.mk.injEq] at h
        obtain ⟨htr, ho⟩ := h
        have hst : st = st' := by injection ho
        subst htr
        subst hst
        refine ⟨rfl, ?_⟩
        simp [List.countP_cons, List.countP_append, isPush, isPop,
          countP_map_stdout isPush (fun s => rfl),
          countP_map_stdout isPop (fun s => rfl)]
      | true =>
        cases downloadOk with
        | true =>
          simp only [if_true, Prod.mk.injEq] at h
          obtain ⟨htr, ho⟩ := h
          have hst : st = st' := by injection ho
          subst htr
          subst hst
          refine ⟨rfl, ?_⟩
          simp [List.countP_cons, List.countP_append, isPush, isPop,
            countP_map_stdout isPush (fun s => rfl),
            countP_map_stdout isPop (fun s => rfl)]
        | false =>
          simp only [if_true, Bool.false_eq_true, if_false] at h
          split at h
          · simp at h
          · simp only [Prod.mk.injEq] at h
            obtain ⟨htr, ho⟩ := h
            have hst : { st with fails := st.fails + 1 } = st' := by injection ho
            subst htr
            rw [← hst]
            refine ⟨rfl, ?_⟩
            simp [List.countP_cons, List.countP_append, isPush, isPop,
              countP_map_stdout isPush (fun s => rfl),
              countP_map_stdout isPop (fun s => rfl)]
  | folder name mkdirErr chdirOk chdirBackOk sub =>
    rw [process_entry] at h
    rcases hpd : pushdir mkdirErr chdirOk name st.stack with ⟨acts, dres⟩
    rw [hpd] at h
    cases dres with
    | exitProcess code => simp at h
    | entered newStack =>
      obtain ⟨hacts, hns⟩ := pushdir_entered_inv mkdirErr chdirOk name
        st.stack newStack acts hpd
      simp only [] at h
      rcases hsub : dump_files pm sub { st with stack := newStack } with ⟨trS, oS⟩
      rw [hsub] at h
      cases oS with
      | exited c => simp at h
      | crashed => simp at h
      | ok st2 =>
        simp only [] at h
        rcases hpop : popdir chdirBackOk st2.stack with ⟨pacts, pres⟩
        rw [hpop] at h
        cases pres with
        | exitProcess code => simp at h
        | crashed => simp at h
        | left ns2 =>
          simp only [] at h
          simp only [Prod.mk.injEq] at h
          obtain ⟨htr, ho⟩ := h
          have hst' : { st2 with stack := ns2 } = st' := by injection ho
          obtain ⟨hpacts, hns2⟩ := popdir_left_inv chdirBackOk st2.stack
            ns2 pacts hpop
          have ihsub := dump_files_balanced pm sub { st with stack := newStack }
            st2 trS hsub
          have hstack2 : st2.stack = newStack := ihsub.1
          constructor
          · rw [← hst']
            simp only []
            rw [hns2, hstack2, hns]
            simp
          · subst htr
            subst hacts
            subst hpacts
            simp only [List.countP_append, List.countP_cons, isPush, isPop]
            simp only [List.countP_nil]
            omega

end

theorem pushdir_noclear (m : Option Nat) (c : Bool) (n : String)
    (s : List String) : (pushdir m c n s).1.countP isClear = 0 := by
  unfold pushdir
  split
  · simp [isClear]
  · split
    · simp [isClear]
    · simp [isClear]

theorem popdir_noclear (cb : Bool) (s : List String) :
    (popdir cb s).1.countP isClear = 0 := by
  unfold popdir
  split
  · simp [isClear]
  · cases s <;> simp [pop_segment, isClear]

mutual

theorem dump_files_noclear (pm : Nat) (l : Listing) (st : St)
    (h : listingNoNull l = true) :
    (dump_files pm l st).1.countP isClear = 0 := by
  cases l with
  | null => simp [listingNoNull] at h
  | entries es =>
    exact process_list_noclear pm es st (by simpa [listingNoNull] using h)

theorem process_list_noclear (pm : Nat) (es : EntryList) (st : St)
    (h : entryListNoNull es = true) :
    (process_list pm es st).1.countP isClear = 0 := by
  cases es with
  | nil => simp [process_list]
  | cons e rest =>
    rw [process_list]
    simp only [entryListNoNull, Bool.and_eq_true] at h
    rcases hpe : process_entry pm e st with ⟨tr1, o1⟩
    have h1 : tr1.countP isClear = 0 := by
      have h2 := process_entry_noclear pm e st h.1
      rw [hpe] at h2
      exact h2
    cases o1 with
    | ok st2 =>
      simp only []
      simp [List.countP_append, h1, process_list_noclear pm rest st2 h.2]
    | exited c => simpa using h1
    | crashed => simpa using h1

theorem process_entry_noclear (pm : Nat) (e : Entry) (st : St)
    (h : entryNoNull e = true) :
    (process_entry pm e st).1.countP isClear = 0 := by
  cases e with
  | file name filesize statRes downloadOk =>
    rw [process_entry]
    rcases hsc : should_copy pm st.stack name filesize statRes with ⟨outs, res⟩
    have hmap : (outs.map Act.stdout).countP isClear = 0 :=
      countP_map_stdout isClear (fun s => rfl) outs
    cases res with
    | exitProcess code => simp [List.countP_cons, isClear, hmap]
    | ret willCopy =>
      cases willCopy with
      | false => simp [List.countP_cons, List.countP_append, isClear, hmap]
      | true =>
        cases downloadOk with
        | true => simp [List.countP_cons, List.countP_append, isClear, hmap]
        | false =>
          by_cases hf : st.fails + 1 > 10 <;>
            simp [hf, List.countP_cons, List.countP_append, isClear, hmap]
  | folder name mkdirErr chdirOk chdirBackOk sub =>
    rw [process_entry]
    rcases hpd : pushdir mkdirErr chdirOk name st.stack with ⟨acts, dres⟩
    have hacts : acts.countP isClear = 0 := by
      have h2 := pushdir_noclear mkdirErr chdirOk name st.stack
      rw [hpd] at h2
      exact h2
    cases dres with
    | exitProcess code => simp [List.countP_cons, isClear, hacts]
    | entered newStack =>
      simp only []
      rcases hsub : dump_files pm sub { st with stack := newStack } with ⟨trS, oS⟩
      have hS : trS.countP isClear = 0 := by
        have h2 := dump_files_noclear pm sub { st with stack := newStack }
          (by simpa [entryNoNull] using h)
        rw [hsub] at h2
        exact h2
      cases oS with
      | exited c =>
        simp [List.countP_cons, List.countP_append, isClear, hacts, hS]
      | crashed =>
        simp [List.countP_cons, List.countP_append, isClear, hacts, hS]
      | ok st2 =>
        simp only []
        rcases hpop : popdir chdirBackOk st2.stack with ⟨pacts, pres⟩
        have hP : pacts.countP isClear = 0 := by
          have h2 := popdir_noclear chdirBackOk st2.stack
          rw [hpop] at h2
          exact h2
        cases pres with
        | exitProcess code =>
          simp [List.countP_cons, List.countP_append, isClear, hacts, hS, hP]
        | crashed =>
          simp [List.countP_cons, List.countP_append, isClear, hacts, hS, hP]
        | left ns2 =>
          simp [List.countP_cons, List.countP_append, isClear, hacts, hS, hP]

end

/-- Claim C5: any `dump_files` traversal that returns normally performs
equally many `push_segment` and `pop_segment` operations and restores
the path stack to its initial value; started at the empty stack it ends
at the empty stack. -/
theorem C5_push_pop_pairing :
    ∀ pm : Nat, ∀ l : Listing, ∀ st st' : St, ∀ tr : List Act,
      dump_files pm l st = (tr, Outcome.ok st') →
      st'.stack = st.stack
      ∧ tr.countP isPush = tr.countP isPop
      ∧ (st.stack = [] → st'.stack = []) := by
  intro pm l st st' tr h
  have hb := dump_files_balanced pm l st st' tr h
  exact ⟨hb.1, hb.2, fun he => by rw [hb.1, he]⟩

/-- Witness for `C5_push_pop_pairing`: the concrete two-level tree
`exampleListing` traverses to a normal return with the stack empty
before and after, and its trace balances pushes and pops. -/
theorem C5_witness :
    dump_files 256 exampleListing ⟨[], 0⟩
        = ((dump_files 256 exampleListing ⟨[], 0⟩).1, Outcome.ok ⟨[], 0⟩)
    ∧ (dump_files 256 exampleListing ⟨[], 0⟩).1.countP isPush
        = (dump_files 256 exampleListing ⟨[], 0⟩).1.countP isPop := by
  constructor
  · decide
  · exact (C5_push_pop_pairing 256 exampleListing ⟨[], 0⟩ ⟨[], 0⟩
      (dump_files 256 exampleListing ⟨[], 0⟩).1 (by decide)).2.1

/-- Claim C7 (counterexample): a `dump_files` call whose listing is
non-null (one plain up-to-date file) completes its visit without any
`LIBMTP_Clear_Errorstack` call, so the error stack is not drained after
every listing call regardless of outcome. -/
theorem C7_counterexample :
    ((dump_files 256 (Listing.entries (EntryList.cons
          (Entry.file ("f.txt") 5 (StatResult.found 5) true) EntryList.nil))
        ⟨[], 0⟩).1.countP isClear = 0)
    ∧ (dump_files 256 (Listing.entries (EntryList.cons
          (Entry.file ("f.txt") 5 (StatResult.found 5) true) EntryList.nil))
        ⟨[], 0⟩).2 = Outcome.ok ⟨[], 0⟩ := by
  constructor
  · decide
  · decide

/-- Claim C7 (amended): the error stack is dumped and cleared exactly
when the listing comes back null — a null listing is treated as an empty
directory (normal return, state unchanged) — and a traversal of a tree
with no null listing anywhere performs no `LIBMTP_Clear_Errorstack`
call at all. -/
theorem C7_errorstack_drained_only_on_null :
    (∀ pm : Nat, ∀ st : St, dump_files pm Listing.null st
        = ([Act.dumpErrorstack, Act.clearErrorstack], Outcome.ok st))
    ∧ (∀ pm : Nat, ∀ l : Listing, ∀ st : St, listingNoNull l = true →
        (dump_files pm l st).1.countP isClear = 0) := by
  constructor
  · intro pm st
    rw [dump_files]
  · intro pm l st h
    exact dump_files_noclear pm l st h

/-- Witness for `C7_errorstack_drained_only_on_null`: the general part
applied to the concrete null-free tree `exampleListing`. -/
theorem C7_witness :
    listingNoNull exampleListing = true
    ∧ (dump_files 256 exampleListing ⟨[], 0⟩).1.countP isClear = 0 := by
  constructor
  · decide
  · exact C7_errorstack_drained_only_on_null.2 256 exampleListing ⟨[], 0⟩
      (by decide)

/-- Claim C8: a `stat` failure with an errno other than `ENOENT` makes
`should_copy` exit the process with that (nonzero) errno, and the
traversal stops there: the listing loop result is exactly the failing
entry's, independent of the remaining siblings. -/
theorem C8_fatal_stat_error :
    ∀ pm : Nat, ∀ n : String, ∀ fs e : Nat, ∀ d : Bool,
      ∀ rest : EntryList, ∀ st : St,
      e ≠ ENOENT → 0 < e →
      ((should_copy pm st.stack n fs (StatResult.error e)).2
          = CopyCheckResult.exitProcess e)
      ∧ (process_entry pm (Entry.file n fs (StatResult.error e) d) st).2
          = Outcome.exited e
      ∧ (process_list pm
            (EntryList.cons (Entry.file n fs (StatResult.error e) d) rest) st
          = process_entry pm (Entry.file n fs (StatResult.error e) d) st)
      ∧ e ≠ 0 := by
  intro pm n fs e d rest st he hpos
  have h1 : (should_copy pm st.stack n fs (StatResult.error e)).2
      = CopyCheckResult.exitProcess e := by
    simp [should_copy, he]
  have h2 : (process_entry pm (Entry.file n fs (StatResult.error e) d) st).2
      = Outcome.exited e := by
    rw [process_entry]
    rcases hsc : should_copy pm st.stack n fs (StatResult.error e) with ⟨outs, res⟩
    have hres : res = CopyCheckResult.exitProcess e := by
      rw [hsc] at h1
      exact h1
    subst hres
    simp
  refine ⟨h1, h2, ?_, by omega⟩
  rw [process_list]
  rcases hpe : process_entry pm (Entry.file n fs (StatResult.error e) d) st
    with ⟨tr1, o1⟩
  have ho : o1 = Outcome.exited e := by
    rw [hpe] at h2
    exact h2
  subst ho
  simp

/-- Witness for `C8_fatal_stat_error`: instantiated at errno 13
(`EACCES`, permission denied). -/
theorem C8_witness :
    (13 : Nat) ≠ ENOENT ∧ (0 : Nat) < 13
    ∧ (process_entry 256 (Entry.file ("w.txt") 5 (StatResult.error 13) true)
        ⟨[], 0⟩).2 = Outcome.exited 13 := by
  refine ⟨by decide, by decide, ?_⟩
  exact (C8_fatal_stat_error 256 ("w.txt") 5 13 true EntryList.nil ⟨[], 0⟩
    (by decide) (by decide)).2.1

/-- Claim C9: `pushdir` treats an `EEXIST` from `mkdir` exactly like
success, exits with status 1 (nonzero) on any other `mkdir` errno and on
a failed `chdir`; a folder entry whose `mkdir` fatally fails ends the
entry loop immediately, with the remaining siblings (and the folder's
own subtree, absent from the returned trace) never processed. -/
theorem C9_fatal_dir_errors :
    ∀ pm : Nat, ∀ n : String, ∀ e : Nat, ∀ c cb : Bool, ∀ sub : Listing,
      ∀ rest : EntryList, ∀ st : St,
      e ≠ EEXIST →
      (pushdir (some EEXIST) c n st.stack = pushdir none c n st.stack)
      ∧ (pushdir (some e) c n st.stack
          = ([Act.stdout ("couldnt mkdir " ++ n)], DirResult.exitProcess 1))
      ∧ (pushdir none false n st.stack
          = ([Act.stdout ("couldnt chdir " ++ n)], DirResult.exitProcess 1))
      ∧ (process_entry pm (Entry.folder n (some e) c cb sub) st
          = ([Act.enterDirectory n, Act.stdout ("couldnt mkdir " ++ n)],
             Outcome.exited 1))
      ∧ (process_list pm
            (EntryList.cons (Entry.folder n (some e) c cb sub) rest) st
          = process_entry pm (Entry.folder n (some e) c cb sub) st)
      ∧ ((process_entry pm (Entry.folder n none false cb sub) st).2
          = Outcome.exited 1)
      ∧ (1 : Nat) ≠ 0 := by
  intro pm n e c cb sub rest st he
  have hbe : (e != EEXIST) = true := by simpa using he
  have hpd : pushdir (some e) c n st.stack
      = ([Act.stdout ("couldnt mkdir " ++ n)], DirResult.exitProcess 1) := by
    simp [pushdir, hbe]
  have hentry : process_entry pm (Entry.folder n (some e) c cb sub) st
      = ([Act.enterDirectory n, Act.stdout ("couldnt mkdir " ++ n)],
         Outcome.exited 1) := by
    rw [process_entry, hpd]
  refine ⟨by simp [pushdir], hpd, by simp [pushdir], hentry, ?_, ?_, by decide⟩
  · rw [process_list, hentry]
  · rw [process_entry]
    have hcd : pushdir none false n st.stack
        = ([Act.stdout ("couldnt chdir " ++ n)], DirResult.exitProcess 1) := by
      simp [pushdir]
    rw [hcd]

/-- Witness for `C9_fatal_dir_errors`: instantiated at errno 13
(`EACCES`): the folder entry aborts the run with exit status 1. -/
theorem C9_witness :
    (13 : Nat) ≠ EEXIST
    ∧ process_entry 256
        (Entry.folder ("d") (some 13) true true (Listing.entries EntryList.nil))
        ⟨[], 0⟩
      = ([Act.enterDirectory ("d"), Act.stdout ("couldnt mkdir " ++ "d")],
         Outcome.exited 1) := by
  refine ⟨by decide, ?_⟩
  exact (C9_fatal_dir_errors 256 ("d") 13 true true
    (Listing.entries EntryList.nil) EntryList.nil ⟨[], 0⟩ (by decide)).2.2.2.1
